import Mathlib

/-!
Verification development for the cloud-scheduler core: a shallow embedding of
`cloudscheduler/cloud_management.py` and `cloudscheduler/job_management.py`
(resource pool, balanced-fit selection, reconciliation, recovery), with
theorems settling the behavioural claims about those modules.

Conventions of the embedding:
* Python unbounded integers become `Int`; lists become `List`.
* `self.resources` (a list of `Cluster` objects) is passed explicitly.
* Functions that live in `cluster_tools.py` (which is not part of the
  sources being verified) are modelled from the specification and marked so
  in their doc comments.
* Methods that can raise an uncaught Python exception are modelled as
  returning `State × Option String`: the observable state at the moment the
  exception propagates, paired with `some exc` naming the exception
  (`none` for a normal return).
-/

namespace CloudScheduler

/-- A virtual machine, with the attributes recovery and capacity
bookkeeping need: identifier, requested memory, cores, storage, and the
index of the memory bin holding its reservation. -/
structure VM where
  id : String
  memory : Int
  cpu_cores : Int
  storage : Int
  memory_bin_index : Nat
  deriving DecidableEq, Repr

/-- A cluster as used by `ResourcePool` in `cloud_management.py`: name,
slot/arch/network/memory-bin/core/storage capacity and the list of live
VMs.  Field names follow the Python attributes (`storageGB`,
`network_pools`, `cpu_archs`; `mem` is the list of memory-bin values). -/
structure Cluster where
  name : String
  vm_slots : Int
  cpu_archs : List String
  network_pools : List String
  mem : List Int
  cpu_cores : Int
  storageGB : Int
  vms : List VM
  deriving DecidableEq, Repr

instance : Inhabited Cluster := ⟨⟨"", 0, [], [], [], 0, 0, []⟩⟩

/-- Modelled from the spec: `num_vms` is defined in `cluster_tools.py`,
which is not among the verified sources.  The spec's balance key is
"`cluster.num_vms()` (lower is more balanced)" and the glossary defines
balanced-fit as minimising the per-cluster live-VM count, so `num_vms`
is the number of live VMs on the cluster. -/
def num_vms (c : Cluster) : Nat := c.vms.length

/-- Modelled from the spec: `find_mementry` is defined in
`cluster_tools.py`, which is not among the verified sources.  Spec 4.1:
"returns the index of the first bin whose remaining value ≥
`requested_mb`, or −1 if none exists". -/
def find_mementry (c : Cluster) (memory : Int) : Int :=
  match c.mem.findIdx? (fun m => memory ≤ m) with
  | some i => (i : Int)
  | none => -1

/-- The requirement checks of `ResourcePool.get_fitting_resources`
(cloud_management.py lines 274-292), written as the source's chain of
`continue` guards: a cluster failing any guard is skipped. -/
def clusterFits (network cpuarch : String) (memory cpucores storage : Int)
    (c : Cluster) : Bool :=
  if c.vm_slots ≤ 0 then false
  else if ¬ (cpuarch ∈ c.cpu_archs) then false
  else if ¬ (network ∈ c.network_pools) then false
  else if find_mementry c memory < 0 then false
  else if cpucores > c.cpu_cores then false
  else if storage > c.storageGB then false
  else true

/-- `ResourcePool.get_fitting_resources` (cloud_management.py lines
268-299): a linear scan appending every cluster that passes all guards;
the empty-pool early return coincides with filtering the empty list. -/
def get_fitting_resources (resources : List Cluster)
    (network cpuarch : String) (memory cpucores storage : Int) : List Cluster :=
  resources.filter (clusterFits network cpuarch memory cpucores storage)

/-- `ResourcePool.get_cluster` (cloud_management.py lines 396-400):
first cluster whose name matches, else `None`. -/
def get_cluster (resources : List Cluster) (cluster_name : String) :
    Option Cluster :=
  resources.find? (fun c => c.name == cluster_name)

/-- `ResourcePool.get_cluster_with_vm` (cloud_management.py lines
402-408): starts from `None` and overwrites the result with every
cluster whose `vms` contains the VM, so the last owner in iteration
order wins. -/
def get_cluster_with_vm (resources : List Cluster) (vm : VM) : Option Cluster :=
  resources.foldl (fun cluster c => if vm ∈ c.vms then some c else cluster) none

/-! Concrete clusters and requirements used by the witnesses and
counterexamples.  `vmN i` are pairwise distinct VM values. -/

def vmN (i : Nat) : VM := ⟨"vm" ++ toString i, 512, 1, 1, 0⟩

def clusterA : Cluster :=
  ⟨"A", 2, ["x86"], ["pub"], [1024, 1024], 4, 20, []⟩

def clusterB : Cluster :=
  ⟨"B", 1, ["x86"], ["pub"], [512], 2, 10, [vmN 1, vmN 2]⟩

def clusterC : Cluster :=
  ⟨"C", 3, ["x86"], ["pub"], [512], 2, 10, [vmN 3, vmN 4, vmN 5]⟩

def clusterArm : Cluster :=
  ⟨"D", 3, ["arm"], ["pub"], [512], 2, 10, []⟩

def pool3 : List Cluster := [clusterA, clusterB, clusterC]

/-- C2: `get_fitting_resources` is sound (every returned cluster passes
all six requirement predicates), complete (every cluster of the pool
passing them is returned), and returns a subsequence of the pool, i.e.
preserves the pool's insertion order. -/
theorem c2_fitting_sound_complete_ordered (resources : List Cluster)
    (network cpuarch : String) (memory cpucores storage : Int) :
    (∀ c ∈ get_fitting_resources resources network cpuarch memory cpucores storage,
      c ∈ resources ∧ 0 < c.vm_slots ∧ cpuarch ∈ c.cpu_archs ∧
      network ∈ c.network_pools ∧ 0 ≤ find_mementry c memory ∧
      cpucores ≤ c.cpu_cores ∧ storage ≤ c.storageGB) ∧
    (∀ c ∈ resources, 0 < c.vm_slots → cpuarch ∈ c.cpu_archs →
      network ∈ c.network_pools → 0 ≤ find_mementry c memory →
      cpucores ≤ c.cpu_cores → storage ≤ c.storageGB →
      c ∈ get_fitting_resources resources network cpuarch memory cpucores storage) ∧
    List.Sublist
      (get_fitting_resources resources network cpuarch memory cpucores storage)
      resources := by
  have hfit : ∀ c : Cluster,
      clusterFits network cpuarch memory cpucores storage c = true ↔
      (0 < c.vm_slots ∧ cpuarch ∈ c.cpu_archs ∧ network ∈ c.network_pools ∧
        0 ≤ find_mementry c memory ∧ cpucores ≤ c.cpu_cores ∧
        storage ≤ c.storageGB) := by
    intro c
    simp only [clusterFits]
    by_cases h1 : c.vm_slots ≤ 0 <;>
      by_cases h2 : cpuarch ∈ c.cpu_archs <;>
        by_cases h3 : network ∈ c.network_pools <;>
          by_cases h4 : find_mementry c memory < 0 <;>
            by_cases h5 : cpucores > c.cpu_cores <;>
              by_cases h6 : storage > c.storageGB <;>
                simp [h1, h2, h3, h4, h5, h6]
    all_goals omega
  refine ⟨?_, ?_, ?_⟩
  · intro c hc
    rw [get_fitting_resources, List.mem_filter] at hc
    exact ⟨hc.1, (hfit c).mp hc.2⟩
  · intro c hc h1 h2 h3 h4 h5 h6
    rw [get_fitting_resources, List.mem_filter]
    exact ⟨hc, (hfit c).mpr ⟨h1, h2, h3, h4, h5, h6⟩⟩
  · exact List.filter_sublist resources

/-- Witness for C2 at the concrete pool `pool3` and the request
(pub, x86, 512, 1, 5). -/
theorem c2_fitting_sound_complete_ordered_witness :
    (∀ c ∈ get_fitting_resources pool3 "pub" "x86" 512 1 5,
      c ∈ pool3 ∧ 0 < c.vm_slots ∧ "x86" ∈ c.cpu_archs ∧
      "pub" ∈ c.network_pools ∧ 0 ≤ find_mementry c 512 ∧
      (1 : Int) ≤ c.cpu_cores ∧ (5 : Int) ≤ c.storageGB) ∧
    (∀ c ∈ pool3, 0 < c.vm_slots → "x86" ∈ c.cpu_archs →
      "pub" ∈ c.network_pools → 0 ≤ find_mementry c 512 →
      (1 : Int) ≤ c.cpu_cores → (5 : Int) ≤ c.storageGB →
      c ∈ get_fitting_resources pool3 "pub" "x86" 512 1 5) ∧
    List.Sublist (get_fitting_resources pool3 "pub" "x86" 512 1 5) pool3 :=
  c2_fitting_sound_complete_ordered pool3 "pub" "x86" 512 1 5

lemma gcwv_concat (l : List Cluster) (c : Cluster) (vm : VM) :
    get_cluster_with_vm (l ++ [c]) vm =
      if vm ∈ c.vms then some c else get_cluster_with_vm l vm := by
  simp [get_cluster_with_vm, List.foldl_append]

lemma gcwv_eq_none (resources : List Cluster) (vm : VM)
    (h : ∀ c ∈ resources, vm ∉ c.vms) :
    get_cluster_with_vm resources vm = none := by
  induction resources using List.reverseRecOn with
  | nil => rfl
  | append_singleton l x ih =>
    rw [gcwv_concat, if_neg (h x (by simp))]
    exact ih (fun c hc => h c (by simp [hc]))

lemma gcwv_eq_some (resources : List Cluster) (vm : VM) (c : Cluster)
    (h : get_cluster_with_vm resources vm = some c) :
    vm ∈ c.vms ∧ ∃ l1 l2, resources = l1 ++ c :: l2 ∧ ∀ d ∈ l2, vm ∉ d.vms := by
  induction resources using List.reverseRecOn with
  | nil => simp [get_cluster_with_vm] at h
  | append_singleton l x ih =>
    rw [gcwv_concat] at h
    by_cases hx : vm ∈ x.vms
    · rw [if_pos hx] at h
      obtain rfl : x = c := by injection h
      exact ⟨hx, l, [], by simp, by simp⟩
    · rw [if_neg hx] at h
      obtain ⟨hv, l1, l2, rfl, hnone⟩ := ih h
      refine ⟨hv, l1, l2 ++ [x], by simp, ?_⟩
      intro d hd
      rcases List.mem_append.mp hd with h1 | h1
      · exact hnone d h1
      · simp at h1; subst h1; exact hx

lemma gcwv_unique (resources : List Cluster) (vm : VM) (c : Cluster)
    (hc : c ∈ resources) (hv : vm ∈ c.vms)
    (huniq : ∀ d ∈ resources, vm ∈ d.vms → d = c) :
    get_cluster_with_vm resources vm = some c := by
  induction resources using List.reverseRecOn with
  | nil => simp at hc
  | append_singleton l x ih =>
    rw [gcwv_concat]
    by_cases hx : vm ∈ x.vms
    · rw [if_pos hx, huniq x (by simp) hx]
    · rw [if_neg hx]
      have hcl : c ∈ l := by
        rcases List.mem_append.mp hc with h1 | h1
        · exact h1
        · simp at h1; subst h1; exact absurd hv hx
      exact ih hcl (fun d hd hvd => huniq d (by simp [hd]) hvd)

/-- C10: `get_cluster_with_vm` returns `none` when no cluster of the
pool holds the VM; when it returns a cluster, that cluster holds the VM
and is the last holder in the pool's iteration order (no later cluster
holds the VM); and when at most one cluster holds the VM, it returns
exactly that owning cluster. -/
theorem c10_get_cluster_with_vm (resources : List Cluster) (vm : VM) :
    ((∀ c ∈ resources, vm ∉ c.vms) → get_cluster_with_vm resources vm = none) ∧
    (∀ c, get_cluster_with_vm resources vm = some c →
      c ∈ resources ∧ vm ∈ c.vms ∧
      ∃ l1 l2, resources = l1 ++ c :: l2 ∧ ∀ d ∈ l2, vm ∉ d.vms) ∧
    (∀ c ∈ resources, vm ∈ c.vms → (∀ d ∈ resources, vm ∈ d.vms → d = c) →
      get_cluster_with_vm resources vm = some c) := by
  refine ⟨gcwv_eq_none resources vm, ?_, ?_⟩
  · intro c h
    obtain ⟨hv, l1, l2, heq, hnone⟩ := gcwv_eq_some resources vm c h
    exact ⟨by simp [heq], hv, l1, l2, heq, hnone⟩
  · intro c hc hv huniq
    exact gcwv_unique resources vm c hc hv huniq

/-- Witness for C10: in `pool3` only cluster C holds `vmN 3`, and the
lookup returns exactly cluster C. -/
theorem c10_get_cluster_with_vm_witness :
    (clusterC ∈ pool3 ∧ vmN 3 ∈ clusterC.vms ∧
      (∀ d ∈ pool3, vmN 3 ∈ d.vms → d = clusterC)) ∧
    get_cluster_with_vm pool3 (vmN 3) = some clusterC :=
  ⟨⟨by decide, by decide, by decide⟩,
    (c10_get_cluster_with_vm pool3 (vmN 3)).2.2 clusterC (by decide) (by decide)
      (by decide)⟩

/-- Python's `list.pop()` removes and returns the last element;
`get_resourceBF` pops the fitting list twice before its linear scan.
`popLast l = some (x, rest)` exactly when `l = rest ++ [x]`. -/
def popLast : List Cluster → Option (Cluster × List Cluster)
  | [] => none
  | [c] => some (c, [])
  | c :: c2 :: rest =>
    match popLast (c2 :: rest) with
    | some (x, ys) => some (x, c :: ys)
    | none => none

lemma popLast_spec (l : List Cluster) (h : l ≠ []) :
    ∃ x ys, popLast l = some (x, ys) ∧ l = ys ++ [x] ∧
      ys.length + 1 = l.length := by
  induction l with
  | nil => exact absurd rfl h
  | cons c rest ih =>
    match rest with
    | [] => exact ⟨c, [], rfl, rfl, rfl⟩
    | c2 :: rest2 =>
      obtain ⟨x, ys, hpop, heq, hlen⟩ := ih (by simp)
      refine ⟨x, c :: ys, ?_, by simp [heq], by simp [← hlen]⟩
      simp only [popLast, hpop]

/-- The linear scan of `get_resourceBF` (cloud_management.py lines
358-366): `bfScan remaining mostbal mostbal_vms nextbal nextbal_vms`.
A candidate with fewer VMs than the current most-balanced cluster
replaces it (the displaced cluster is dropped, not demoted); otherwise a
candidate with fewer VMs than the next-most-balanced replaces that. -/
def bfScan : List Cluster → Cluster → Nat → Cluster → Nat → Cluster × Cluster
  | [], mostbal_cluster, _, nextbal_cluster, _ =>
    (mostbal_cluster, nextbal_cluster)
  | c :: rest, mostbal_cluster, mostbal_vms, nextbal_cluster, nextbal_vms =>
    if num_vms c < mostbal_vms then
      bfScan rest c (num_vms c) nextbal_cluster nextbal_vms
    else if num_vms c < nextbal_vms then
      bfScan rest mostbal_cluster mostbal_vms c (num_vms c)
    else
      bfScan rest mostbal_cluster mostbal_vms nextbal_cluster nextbal_vms

/-- `ResourcePool.get_resourceBF` (cloud_management.py lines 327-369).
Empty fitting list gives `(None, None)`; a singleton gives
`(that, None)`; otherwise the last two fitting clusters seed the
most/next-balanced pair and the remaining prefix is scanned in order. -/
def get_resourceBF (resources : List Cluster) (network cpuarch : String)
    (memory cpucores storage : Int) : Option Cluster × Option Cluster :=
  let fitting_clusters :=
    get_fitting_resources resources network cpuarch memory cpucores storage
  match popLast fitting_clusters with
  | none => (none, none)
  | some (cluster1, rest1) =>
    match popLast rest1 with
    | none => (some cluster1, none)
    | some (cluster2, rest) =>
      let mostbal_cluster :=
        if num_vms cluster1 < num_vms cluster2 then cluster1 else cluster2
      let nextbal_cluster :=
        if num_vms cluster1 < num_vms cluster2 then cluster2 else cluster1
      let r := bfScan rest mostbal_cluster (num_vms mostbal_cluster)
        nextbal_cluster (num_vms nextbal_cluster)
      (some r.1, some r.2)

lemma bfScan_inv (rest : List Cluster) :
    ∀ mb nb p s, num_vms mb ≤ num_vms nb →
      bfScan rest mb (num_vms mb) nb (num_vms nb) = (p, s) →
      (p = mb ∨ p = nb ∨ p ∈ rest) ∧ (s = mb ∨ s = nb ∨ s ∈ rest) ∧
      num_vms p ≤ num_vms s ∧ num_vms p ≤ num_vms mb ∧
      ∀ c ∈ rest, num_vms p ≤ num_vms c := by
  induction rest with
  | nil =>
    intro mb nb p s hle heq
    simp only [bfScan] at heq
    obtain ⟨rfl, rfl⟩ := Prod.mk.injEq .. ▸ And.intro
      (congrArg Prod.fst heq) (congrArg Prod.snd heq)
    exact ⟨Or.inl rfl, Or.inr (Or.inl rfl), hle, le_refl _, by simp⟩
  | cons c rest ih =>
    intro mb nb p s hle heq
    simp only [bfScan] at heq
    by_cases h1 : num_vms c < num_vms mb
    · rw [if_pos h1] at heq
      obtain ⟨hp, hs, hps, hpc, hall⟩ :=
        ih c nb p s (Nat.le_of_lt (Nat.lt_of_lt_of_le h1 hle)) heq
      refine ⟨?_, ?_, hps, Nat.le_of_lt (Nat.lt_of_le_of_lt hpc h1), ?_⟩
      · rcases hp with rfl | rfl | hp
        · exact Or.inr (Or.inr (by simp))
        · exact Or.inr (Or.inl rfl)
        · exact Or.inr (Or.inr (by simp [hp]))
      · rcases hs with rfl | rfl | hs
        · exact Or.inr (Or.inr (by simp))
        · exact Or.inr (Or.inl rfl)
        · exact Or.inr (Or.inr (by simp [hs]))
      · intro d hd
        rcases List.mem_cons.mp hd with rfl | hd
        · exact hpc
        · exact hall d hd
    · rw [if_neg h1] at heq
      have hmc : num_vms mb ≤ num_vms c := Nat.le_of_not_lt h1
      by_cases h2 : num_vms c < num_vms nb
      · rw [if_pos h2] at heq
        obtain ⟨hp, hs, hps, hpm, hall⟩ := ih mb c p s hmc heq
        refine ⟨?_, ?_, hps, hpm, ?_⟩
        · rcases hp with rfl | rfl | hp
          · exact Or.inl rfl
          · exact Or.inr (Or.inr (by simp))
          · exact Or.inr (Or.inr (by simp [hp]))
        · rcases hs with rfl | rfl | hs
          · exact Or.inl rfl
          · exact Or.inr (Or.inr (by simp))
          · exact Or.inr (Or.inr (by simp [hs]))
        · intro d hd
          rcases List.mem_cons.mp hd with rfl | hd
          · exact le_trans hpm hmc
          · exact hall d hd
      · rw [if_neg h2] at heq
        obtain ⟨hp, hs, hps, hpm, hall⟩ := ih mb nb p s hle heq
        refine ⟨?_, ?_, hps, hpm, ?_⟩
        · rcases hp with rfl | rfl | hp
          · exact Or.inl rfl
          · exact Or.inr (Or.inl rfl)
          · exact Or.inr (Or.inr (by simp [hp]))
        · rcases hs with rfl | rfl | hs
          · exact Or.inl rfl
          · exact Or.inr (Or.inl rfl)
          · exact Or.inr (Or.inr (by simp [hs]))
        · intro d hd
          rcases List.mem_cons.mp hd with rfl | hd
          · exact le_trans hpm (le_trans hle (Nat.le_of_not_lt h2))
          · exact hall d hd

lemma get_resourceBF_spec (resources : List Cluster)
    (network cpuarch : String) (memory cpucores storage : Int)
    (h2 : 2 ≤ (get_fitting_resources resources network cpuarch memory
      cpucores storage).length) :
    ∃ p s, get_resourceBF resources network cpuarch memory cpucores storage =
        (some p, some s) ∧
      p ∈ get_fitting_resources resources network cpuarch memory cpucores storage ∧
      s ∈ get_fitting_resources resources network cpuarch memory cpucores storage ∧
      num_vms p ≤ num_vms s ∧
      ∀ c ∈ get_fitting_resources resources network cpuarch memory cpucores storage,
        num_vms p ≤ num_vms c := by
  obtain ⟨c1, r1, hpop1, heq1, hlen1⟩ :=
    popLast_spec (get_fitting_resources resources network cpuarch memory
      cpucores storage) (by intro h; rw [h] at h2; simp at h2)
  obtain ⟨c2, r, hpop2, heq2, hlen2⟩ := popLast_spec r1 (by
    intro h
    rw [heq1, h] at h2
    simp at h2)
  rcases hbs : bfScan r (if num_vms c1 < num_vms c2 then c1 else c2)
      (num_vms (if num_vms c1 < num_vms c2 then c1 else c2))
      (if num_vms c1 < num_vms c2 then c2 else c1)
      (num_vms (if num_vms c1 < num_vms c2 then c2 else c1)) with ⟨p, s⟩
  have hres : get_resourceBF resources network cpuarch memory cpucores storage =
      (some p, some s) := by
    simp only [get_resourceBF, hpop1, hpop2, hbs]
  have hle : num_vms (if num_vms c1 < num_vms c2 then c1 else c2) ≤
      num_vms (if num_vms c1 < num_vms c2 then c2 else c1) := by
    by_cases hc : num_vms c1 < num_vms c2
    · simp [hc]; omega
    · simp [hc]; omega
  obtain ⟨hp, hs, hps, hpm, hall⟩ := bfScan_inv r _ _ p s hle hbs
  have hFr : get_fitting_resources resources network cpuarch memory cpucores
      storage = r ++ [c2, c1] := by
    rw [heq1, heq2]; simp
  have hmem : ∀ x : Cluster,
      (x = (if num_vms c1 < num_vms c2 then c1 else c2) ∨
       x = (if num_vms c1 < num_vms c2 then c2 else c1) ∨ x ∈ r) →
      x ∈ get_fitting_resources resources network cpuarch memory cpucores
        storage := by
    intro x hx
    rw [hFr]
    rcases hx with rfl | rfl | hx
    · by_cases hc : num_vms c1 < num_vms c2 <;> simp [hc]
    · by_cases hc : num_vms c1 < num_vms c2 <;> simp [hc]
    · simp [hx]
  have hminIf : ∀ x : Cluster,
      num_vms p ≤ num_vms (if num_vms c1 < num_vms c2 then c1 else c2) →
      num_vms p ≤ num_vms c1 ∧ num_vms p ≤ num_vms c2 := by
    intro x h
    by_cases hc : num_vms c1 < num_vms c2
    · rw [if_pos hc] at h; omega
    · rw [if_neg hc] at h; omega
  obtain ⟨hp1, hp2⟩ := hminIf p hpm
  refine ⟨p, s, hres, hmem p hp, hmem s hs, hps, ?_⟩
  intro c hc
  rw [hFr] at hc
  rcases List.mem_append.mp hc with hc | hc
  · exact hall c hc
  · rcases List.mem_cons.mp hc with rfl | hc
    · exact hp2
    · rcases List.mem_cons.mp hc with rfl | hc
      · exact hp1
      · simp at hc

/-- C1 counterexample: in `pool3` the fitting clusters are A (0 VMs),
B (2 VMs), C (3 VMs); balanced-fit returns primary A and secondary C,
yet fitting cluster B — distinct from the primary — has strictly fewer
VMs than C, so the secondary does NOT have the second-smallest
`num_vms()`: when A displaced B during the scan, B was dropped rather
than demoted into the secondary slot. -/
theorem c1_counterexample :
    get_resourceBF pool3 "pub" "x86" 512 1 5 = (some clusterA, some clusterC) ∧
    clusterB ∈ get_fitting_resources pool3 "pub" "x86" 512 1 5 ∧
    clusterB ≠ clusterA ∧ num_vms clusterB < num_vms clusterC := by decide

/-- C1 (amended): with at least two fitting clusters, balanced-fit
returns `(some primary, some secondary)` where both are fitting
clusters, the primary has the minimum `num_vms()` and
`num_vms primary ≤ num_vms secondary`; but the secondary need not have
the second-smallest `num_vms()`: during the scan, a candidate that
beats the current primary simply replaces it while the secondary is
left unchanged (the displaced primary is discarded, not demoted). -/
theorem c1_amended_balancedFit (resources : List Cluster)
    (network cpuarch : String) (memory cpucores storage : Int)
    (h2 : 2 ≤ (get_fitting_resources resources network cpuarch memory
      cpucores storage).length) :
    (∃ p s, get_resourceBF resources network cpuarch memory cpucores storage =
        (some p, some s) ∧
      p ∈ get_fitting_resources resources network cpuarch memory cpucores storage ∧
      s ∈ get_fitting_resources resources network cpuarch memory cpucores storage ∧
      num_vms p ≤ num_vms s ∧
      ∀ c ∈ get_fitting_resources resources network cpuarch memory cpucores storage,
        num_vms p ≤ num_vms c) ∧
    (∀ (c : Cluster) (rest : List Cluster) (mb nb : Cluster),
      num_vms c < num_vms mb →
      bfScan (c :: rest) mb (num_vms mb) nb (num_vms nb) =
        bfScan rest c (num_vms c) nb (num_vms nb)) := by
  refine ⟨get_resourceBF_spec resources network cpuarch memory cpucores storage
    h2, ?_⟩
  intro c rest mb nb h
  simp only [bfScan, if_pos h]

/-- Witness for C1 (amended) at `pool3`. -/
theorem c1_amended_balancedFit_witness :
    2 ≤ (get_fitting_resources pool3 "pub" "x86" 512 1 5).length ∧
    ((∃ p s, get_resourceBF pool3 "pub" "x86" 512 1 5 = (some p, some s) ∧
      p ∈ get_fitting_resources pool3 "pub" "x86" 512 1 5 ∧
      s ∈ get_fitting_resources pool3 "pub" "x86" 512 1 5 ∧
      num_vms p ≤ num_vms s ∧
      ∀ c ∈ get_fitting_resources pool3 "pub" "x86" 512 1 5,
        num_vms p ≤ num_vms c) ∧
    (∀ (c : Cluster) (rest : List Cluster) (mb nb : Cluster),
      num_vms c < num_vms mb →
      bfScan (c :: rest) mb (num_vms mb) nb (num_vms nb) =
        bfScan rest c (num_vms c) nb (num_vms nb))) :=
  ⟨by decide, c1_amended_balancedFit pool3 "pub" "x86" 512 1 5 (by decide)⟩

/-- C3: with at least two fitting clusters, balanced-fit returns a pair
`(some primary, some secondary)` with `num_vms primary ≤ num_vms
secondary`, and no fitting cluster has strictly fewer VMs than the
primary. -/
theorem c3_balanced_fit_ordering (resources : List Cluster)
    (network cpuarch : String) (memory cpucores storage : Int)
    (h2 : 2 ≤ (get_fitting_resources resources network cpuarch memory
      cpucores storage).length) :
    ∃ p s, get_resourceBF resources network cpuarch memory cpucores storage =
        (some p, some s) ∧
      num_vms p ≤ num_vms s ∧
      ∀ c ∈ get_fitting_resources resources network cpuarch memory cpucores storage,
        ¬ (num_vms c < num_vms p) := by
  obtain ⟨p, s, hres, _, _, hps, hall⟩ :=
    get_resourceBF_spec resources network cpuarch memory cpucores storage h2
  exact ⟨p, s, hres, hps, fun c hc => Nat.not_lt.mpr (hall c hc)⟩

/-- Witness for C3 at `pool3`. -/
theorem c3_balanced_fit_ordering_witness :
    2 ≤ (get_fitting_resources pool3 "pub" "x86" 512 1 5).length ∧
    (∃ p s, get_resourceBF pool3 "pub" "x86" 512 1 5 = (some p, some s) ∧
      num_vms p ≤ num_vms s ∧
      ∀ c ∈ get_fitting_resources pool3 "pub" "x86" 512 1 5,
        ¬ (num_vms c < num_vms p)) :=
  ⟨by decide, c3_balanced_fit_ordering pool3 "pub" "x86" 512 1 5 (by decide)⟩

/-- Sequential `for`-loop appending: the effect of Python's nested
loops that append to an accumulator list, one block per element. -/
def flatMapL {α β : Type} (f : α → List β) : List α → List β
  | [] => []
  | a :: rest => f a ++ flatMapL f rest

lemma filter_flatMapL {α β : Type} (p : β → Bool) (f : α → List β)
    (l : List α) :
    (flatMapL f l).filter p = flatMapL (fun a => (f a).filter p) l := by
  induction l with
  | nil => rfl
  | cons a rest ih => simp [flatMapL, List.filter_append, ih]

lemma mem_flatMapL {α β : Type} (f : α → List β) (l : List α) (x : β) :
    x ∈ flatMapL f l ↔ ∃ a ∈ l, x ∈ f a := by
  induction l with
  | nil => simp [flatMapL]
  | cons a rest ih => simp [flatMapL, ih]

lemma flatMapL_eq_nil {α β : Type} (f : α → List β) (l : List α)
    (h : ∀ a ∈ l, f a = []) : flatMapL f l = [] := by
  induction l with
  | nil => rfl
  | cons a rest ih =>
    simp [flatMapL, h a (by simp)]
    exact ih (fun a ha => h a (by simp [ha]))

lemma flatMapL_eq_single {β : Type} (l : List String) (hl : l.Nodup)
    (t : String) (ht : t ∈ l) (g : String → List β) (x : β)
    (hg1 : g t = [x]) (hg2 : ∀ u ∈ l, u ≠ t → g u = []) :
    flatMapL g l = [x] := by
  induction l with
  | nil => simp at ht
  | cons a rest ih =>
    rcases List.mem_cons.mp ht with rfl | ht2
    · have hrest : flatMapL g rest = [] := by
        refine flatMapL_eq_nil g rest (fun u hu => hg2 u (by simp [hu]) ?_)
        intro h
        subst h
        exact (List.nodup_cons.mp hl).1 hu
      simp [flatMapL, hg1, hrest]
    · have ha : g a = [] := by
        refine hg2 a (by simp) ?_
        intro h
        subst h
        exact (List.nodup_cons.mp hl).1 ht2
      simp [flatMapL, ha]
      exact ih (List.nodup_cons.mp hl).2 ht2
        (fun u hu hne => hg2 u (by simp [hu]) hne)

lemma filter_name_singleton (l : List Cluster)
    (h : (l.map Cluster.name).Nodup) (c : Cluster) (hc : c ∈ l) :
    l.filter (fun d => d.name == c.name) = [c] := by
  induction l with
  | nil => simp at hc
  | cons a rest ih =>
    rw [List.map_cons, List.nodup_cons] at h
    rcases List.mem_cons.mp hc with heq | hc2
    · subst heq
      have hrest : rest.filter (fun d => d.name == c.name) = [] := by
        rw [List.filter_eq_nil_iff]
        intro d hd
        simp only [beq_iff_eq]
        intro hdn
        apply h.1
        rw [← hdn]
        exact List.mem_map_of_mem Cluster.name hd
      simp [List.filter_cons, hrest]
    · have hne : (a.name == c.name) = false := by
        rw [beq_eq_false_iff_ne]
        intro hdn
        apply h.1
        rw [hdn]
        exact List.mem_map_of_mem Cluster.name hc2
      rw [List.filter_cons, hne]
      simpa using ih h.2 hc2

/-- `ResourcePool.setup` (cloud_management.py lines 74-143), restricted
to how it rebuilds `self.resources` from the freshly configured
`new_resources`: for each updated name, every matching old/new pair
yields the new cluster object with the old cluster's `vms` transplanted
(line 124); added names contribute the new cluster as-is; removed
clusters only have their VMs destroyed and never re-enter the list.
The source iterates over `reversed(self.resources)` to build
`old_resources`, and iterates `updated_names`/`added_names` as Python
sets whose order is unspecified; the embedding fixes that order to the
order of `new_resource_names`, on which the per-name claim does not
depend. -/
def setupResources (resources new_resources : List Cluster) : List Cluster :=
  let original_resource_names := resources.map Cluster.name
  let new_resource_names := new_resources.map Cluster.name
  let updated_names :=
    new_resource_names.filter (fun n => n ∈ original_resource_names)
  let added_names :=
    new_resource_names.filter (fun n => ¬ n ∈ original_resource_names)
  let old_resources := resources.reverse
  flatMapL (fun updated_name =>
      flatMapL (fun old_cluster =>
          flatMapL (fun new_cluster => [{ new_cluster with vms := old_cluster.vms }])
            (new_resources.filter (fun nc => nc.name == updated_name)))
        (old_resources.filter (fun oc => oc.name == updated_name)))
    updated_names
  ++
  flatMapL (fun added_name =>
      new_resources.filter (fun nc => nc.name == added_name)) added_names

/-- C4: when cluster names are unique on both sides, reconfiguration
leaves, for every name present both before and after, exactly one
cluster of that name in the rebuilt pool, and that cluster is the
freshly configured object (new capacity, archs, networks, bins) holding
exactly the pre-reconfiguration cluster's `vms`. -/
theorem c4_reconfigure_preserves_vms (resources new_resources : List Cluster)
    (hOld : (resources.map Cluster.name).Nodup)
    (hNew : (new_resources.map Cluster.name).Nodup)
    (oc nc : Cluster) (hoc : oc ∈ resources) (hnc : nc ∈ new_resources)
    (hname : oc.name = nc.name) :
    (setupResources resources new_resources).filter
      (fun c => c.name == oc.name) = [{ nc with vms := oc.vms }] := by
  have hocn : oc.name ∈ resources.map Cluster.name :=
    List.mem_map_of_mem Cluster.name hoc
  have hncn : nc.name ∈ new_resources.map Cluster.name :=
    List.mem_map_of_mem Cluster.name hnc
  rw [setupResources]
  simp only [List.filter_append]
  have hadded :
      (flatMapL (fun added_name =>
          new_resources.filter (fun c => c.name == added_name))
        ((new_resources.map Cluster.name).filter
          (fun n => ¬ n ∈ resources.map Cluster.name))).filter
        (fun c => c.name == oc.name) = [] := by
    rw [filter_flatMapL]
    refine flatMapL_eq_nil _ _ ?_
    intro an han
    rw [List.mem_filter] at han
    have hannot : ¬ an ∈ resources.map Cluster.name := by simpa using han.2
    rw [List.filter_filter, List.filter_eq_nil_iff]
    intro d _
    simp only [Bool.and_eq_true, beq_iff_eq, not_and]
    intro h1 h2
    apply hannot
    rw [← h2, h1]
    exact hocn
  have hupdated :
      (flatMapL (fun updated_name =>
          flatMapL (fun old_cluster =>
              flatMapL (fun new_cluster =>
                  [{ new_cluster with vms := old_cluster.vms }])
                (new_resources.filter (fun c => c.name == updated_name)))
            ((resources.reverse).filter (fun c => c.name == updated_name)))
        ((new_resources.map Cluster.name).filter
          (fun n => n ∈ resources.map Cluster.name))).filter
        (fun c => c.name == oc.name) = [{ nc with vms := oc.vms }] := by
    rw [filter_flatMapL]
    refine flatMapL_eq_single _ (List.Nodup.filter _ hNew) oc.name ?_ _ _ ?_ ?_
    · rw [List.mem_filter]
      exact ⟨hname ▸ hncn, by simpa using hocn⟩
    · have hofilt : (resources.reverse).filter (fun c => c.name == oc.name) =
          [oc] := by
        rw [List.filter_reverse, filter_name_singleton resources hOld oc hoc]
        rfl
      have hnfilt : new_resources.filter (fun c => c.name == oc.name) =
          [nc] := by
        rw [hname, filter_name_singleton new_resources hNew nc hnc]
      rw [hofilt, hnfilt]
      simp [flatMapL, List.filter_cons, hname]
    · intro u hu hne
      rw [List.filter_eq_nil_iff]
      intro d hd
      rw [mem_flatMapL] at hd
      obtain ⟨old_c, _, hd2⟩ := hd
      rw [mem_flatMapL] at hd2
      obtain ⟨new_c, hnewc, hd3⟩ := hd2
      rw [List.mem_filter] at hnewc
      simp only [List.mem_singleton] at hd3
      subst hd3
      simp only [beq_iff_eq]
      intro hcon
      have : new_c.name = u := by simpa using hnewc.2
      exact hne (by rw [← hcon, this])
  rw [hadded, hupdated]
  simp

/-- A freshly configured replacement for cluster B: same name, new
capacity, architectures, networks and memory bins, empty `vms`. -/
def clusterB2 : Cluster := ⟨"B", 9, ["arm"], ["priv"], [256], 8, 99, []⟩

/-- Witness for C4: reconfiguring `[clusterB]` (2 live VMs) with the
fresh configuration `[clusterB2]` of the same name keeps B's VMs inside
the new object. -/
theorem c4_reconfigure_preserves_vms_witness :
    ((([clusterB] : List Cluster).map Cluster.name).Nodup ∧
      (([clusterB2] : List Cluster).map Cluster.name).Nodup ∧
      clusterB ∈ ([clusterB] : List Cluster) ∧
      clusterB2 ∈ ([clusterB2] : List Cluster) ∧
      clusterB.name = clusterB2.name) ∧
    (setupResources [clusterB] [clusterB2]).filter
      (fun c => c.name == clusterB.name) =
      [{ clusterB2 with vms := clusterB.vms }] :=
  ⟨⟨by decide, by decide, by decide, by decide, by decide⟩,
    c4_reconfigure_preserves_vms [clusterB] [clusterB2]
      (by decide) (by decide) clusterB clusterB2 (by decide) (by decide)
      (by decide)⟩

/-- Decrement the bin at the given index by the given amount; out of
range leaves the bins unchanged. -/
def decBin : List Int → Nat → Int → List Int
  | [], _, _ => []
  | m :: rest, 0, amount => (m - amount) :: rest
  | m :: rest, i + 1, amount => m :: decBin rest i amount

/-- Modelled from the spec: `resource_checkout` is defined in
`cluster_tools.py`, which is not among the verified sources.  Spec 4.7:
recovery "checks out" the cluster's capacity counters — "slot, memory
bin, storage decremented"; spec 3: the VM's `memory_bin_index` points
at a bin whose value was decremented by that VM's requested memory. -/
def resource_checkout (c : Cluster) (vm : VM) : Cluster :=
  { c with vm_slots := c.vm_slots - 1,
           mem := decBin c.mem vm.memory_bin_index vm.memory,
           storageGB := c.storageGB - vm.storage }

/-- The in-place mutation of the cluster that `get_cluster` found
(cloud_management.py lines 563-564): append the VM to its `vms` and
check its capacity out.  Only the first cluster of the given name is
touched, matching `get_cluster`'s first-match lookup. -/
def checkoutVM : List Cluster → String → VM → List Cluster
  | [], _, _ => []
  | c :: rest, cname, vm =>
    if c.name == cname then
      resource_checkout { c with vms := c.vms ++ [vm] } vm :: rest
    else
      c :: checkoutVM rest cname vm

/-- One iteration of the inner loop of `ResourcePool.load_persistence`
(cloud_management.py lines 556-573) on persisted VM `vm` of the
persisted cluster named `cname`.  The state is (current resources, VMs
destroyed so far); `vm_poll` is the opaque driver poll (a
`cluster_tools` method, here an oracle parameter). -/
def restoreVM (vm_poll : VM → String) (st : List Cluster × List VM)
    (cname : String) (vm : VM) : List Cluster × List VM :=
  if vm_poll vm ≠ "Error" then
    match get_cluster st.1 cname with
    | some _ => (checkoutVM st.1 cname vm, st.2)
    | none => (st.1, st.2 ++ [vm])
  else
    (st.1, st.2 ++ [vm])

/-- `ResourcePool.load_persistence` (cloud_management.py lines
529-573), from the point where the pickled `old_resources` have been
read: the nested loops over persisted clusters and their VMs, starting
from the current `self.resources` and an empty destroyed set. -/
def load_persistence (resources : List Cluster) (vm_poll : VM → String)
    (old_resources : List Cluster) : List Cluster × List VM :=
  old_resources.foldl
    (fun st old_cluster =>
      old_cluster.vms.foldl
        (fun st2 vm => restoreVM vm_poll st2 old_cluster.name vm) st)
    (resources, [])

lemma foldl_flatMapL_pairs (vm_poll : VM → String)
    (old_resources : List Cluster) :
    ∀ init : List Cluster × List VM,
      old_resources.foldl
        (fun st oc =>
          oc.vms.foldl (fun st2 vm => restoreVM vm_poll st2 oc.name vm) st)
        init =
      (flatMapL (fun oc => oc.vms.map (fun vm => (oc.name, vm)))
          old_resources).foldl
        (fun st p => restoreVM vm_poll st p.1 p.2) init := by
  induction old_resources with
  | nil => intro init; rfl
  | cons oc rest ih =>
    intro init
    rw [List.foldl_cons, flatMapL, List.foldl_append, ih, List.foldl_map]

lemma get_cluster_checkoutVM (resources : List Cluster) (cname : String)
    (vm : VM) (c : Cluster) (h : get_cluster resources cname = some c) :
    get_cluster (checkoutVM resources cname vm) cname =
      some (resource_checkout { c with vms := c.vms ++ [vm] } vm) := by
  induction resources with
  | nil => simp [get_cluster] at h
  | cons a rest ih =>
    by_cases ha : (a.name == cname) = true
    · rw [get_cluster, List.find?_cons, ha] at h
      obtain rfl : a = c := by injection h
      rw [checkoutVM, if_pos ha, get_cluster, List.find?_cons]
      have : (resource_checkout { a with vms := a.vms ++ [vm] } vm).name =
          a.name := rfl
      rw [show ((resource_checkout { a with vms := a.vms ++ [vm] } vm).name ==
        cname) = true from this ▸ ha]
    · rw [get_cluster, List.find?_cons] at h
      rw [Bool.not_eq_true] at ha
      rw [ha] at h
      rw [checkoutVM, if_neg (by simp [ha]), get_cluster, List.find?_cons, ha]
      exact ih h

/-- C7: during recovery every persisted VM of every persisted cluster
is polled and processed in order (`load_persistence` is the fold of the
per-VM step over all persisted (cluster name, VM) pairs); a VM polling
Error is destroyed and the pool untouched; a non-Error VM whose
persisted cluster name is absent from the current configuration is
destroyed; a non-Error VM whose cluster exists is appended to that
cluster's `vms` and the cluster's capacity is checked out (slot, memory
bin, storage decremented), with nothing destroyed. -/
theorem c7_load_persistence_recovery (vm_poll : VM → String) :
    (∀ resources old_resources,
      load_persistence resources vm_poll old_resources =
        (flatMapL (fun oc => oc.vms.map (fun vm => (oc.name, vm)))
            old_resources).foldl
          (fun st p => restoreVM vm_poll st p.1 p.2) (resources, [])) ∧
    (∀ st cname vm, vm_poll vm = "Error" →
      restoreVM vm_poll st cname vm = (st.1, st.2 ++ [vm])) ∧
    (∀ st cname vm, vm_poll vm ≠ "Error" → get_cluster st.1 cname = none →
      restoreVM vm_poll st cname vm = (st.1, st.2 ++ [vm])) ∧
    (∀ st cname vm c, vm_poll vm ≠ "Error" →
      get_cluster st.1 cname = some c →
      restoreVM vm_poll st cname vm = (checkoutVM st.1 cname vm, st.2) ∧
      get_cluster (checkoutVM st.1 cname vm) cname =
        some (resource_checkout { c with vms := c.vms ++ [vm] } vm)) := by
  refine ⟨?_, ?_, ?_, ?_⟩
  · intro resources old_resources
    rw [load_persistence]
    exact foldl_flatMapL_pairs vm_poll old_resources (resources, [])
  · intro st cname vm h
    simp [restoreVM, h]
  · intro st cname vm h1 h2
    simp [restoreVM, h1, h2]
  · intro st cname vm c h1 h2
    constructor
    · simp [restoreVM, h1, h2]
    · exact get_cluster_checkoutVM st.1 cname vm c h2

/-- Witness for C7: restoring the non-Error VM `vmN 9` persisted on
cluster "A" into `pool3` appends it to A's `vms` and checks A's
capacity out. -/
theorem c7_load_persistence_recovery_witness :
    ((fun _ : VM => "Running") (vmN 9) ≠ "Error" ∧
      get_cluster pool3 "A" = some clusterA) ∧
    (restoreVM (fun _ => "Running") (pool3, []) "A" (vmN 9) =
        (checkoutVM pool3 "A" (vmN 9), []) ∧
      get_cluster (checkoutVM pool3 "A" (vmN 9)) "A" =
        some (resource_checkout { clusterA with
          vms := clusterA.vms ++ [vmN 9] } (vmN 9))) :=
  ⟨⟨by decide, by decide⟩,
    (c7_load_persistence_recovery (fun _ => "Running")).2.2.2
      (pool3, []) "A" (vmN 9) clusterA (by decide) (by decide)⟩

/-- A job as stored by `JobPool` (job_management.py lines 52-151), with
the attributes the pool operations read: id, user, integer priority and
lifecycle status ("Unscheduled" or "Scheduled"). -/
structure Job where
  id : String
  user : String
  priority : Int
  status : String
  deriving DecidableEq, Repr

/-- A raw record of the external queue snapshot, carrying the fields
`job_querySOAP` turns into a `Job`: `GlobalJobId`, `Owner`,
`JobPrio`. -/
structure JobRecord where
  GlobalJobId : String
  Owner : String
  JobPrio : Int
  deriving DecidableEq, Repr

/-- `Job.__init__` on the extracted class-ad fields: a new job starts
with `statuses[0]`, i.e. "Unscheduled" (job_management.py line 97). -/
def jobFromRecord (r : JobRecord) : Job :=
  ⟨r.GlobalJobId, r.Owner, r.JobPrio, "Unscheduled"⟩

/-- A Python dict from user name to job list, embedded as an
association list with at most one entry per key. -/
abbrev JobDict := List (String × List Job)

def dictLookup (d : JobDict) (k : String) : Option (List Job) :=
  (d.find? (fun e => e.1 == k)).map (fun e => e.2)

def dictSet : JobDict → String → List Job → JobDict
  | [], k, v => [(k, v)]
  | e :: rest, k, v =>
    if e.1 == k then (k, v) :: rest else e :: dictSet rest k v

/-- Python 2 `job in list` and `list.remove(job)` fall back to
`Job.__cmp__` (job_management.py lines 108-111), which compares ONLY
the integer priority: two distinct jobs of equal priority are "equal"
to these operations. -/
def jobEq (a b : Job) : Bool := a.priority == b.priority

def pyContains (l : List Job) (j : Job) : Bool := l.any (fun e => jobEq e j)

def pyRemoveFirst : List Job → Job → List Job
  | [], _ => []
  | a :: rest, j => if jobEq a j then rest else a :: pyRemoveFirst rest j

/-- `bisect.insort` with `Job.__cmp__`: insert before the first element
of strictly greater priority, i.e. after every element of
smaller-or-equal priority, so ties keep insertion order.  On the
priority-sorted lists that `new_jobs` maintains, the stdlib's binary
insertion coincides with this linear form. -/
def insort : List Job → Job → List Job
  | [], j => [j]
  | a :: rest, j =>
    if j.priority < a.priority then j :: a :: rest else a :: insort rest j

/-- The two maps of `JobPool` (job_management.py lines 163-164):
unscheduled and scheduled jobs, each keyed by user. -/
structure JPState where
  new_jobs : JobDict
  sched_jobs : JobDict
  deriving DecidableEq, Repr

def allJobs (d : JobDict) : List Job := flatMapL (fun e => e.2) d

/-- `JobPool.add_job_ordered` (job_management.py lines 300-310). -/
def add_job_ordered (job_dict : JobDict) (job : Job) : JobDict :=
  match dictLookup job_dict job.user with
  | some l => dictSet job_dict job.user (insort l job)
  | none => dictSet job_dict job.user [job]

/-- `JobPool.add_job_unordered` (job_management.py lines 316-327). -/
def add_job_unordered (job_dict : JobDict) (job : Job) : JobDict :=
  match dictLookup job_dict job.user with
  | some l => dictSet job_dict job.user (l ++ [job])
  | none => dictSet job_dict job.user [job]

/-- `JobPool.add_new_job` (job_management.py lines 292-293). -/
def add_new_job (st : JPState) (job : Job) : JPState :=
  { st with new_jobs := add_job_ordered st.new_jobs job }

/-- The exception Python raises at a bare reference to the class
attribute `new_jobs` inside a `JobPool` method (the class body is not a
scope for method-local name lookup). -/
def nameErrorNew : String := "NameError: name new_jobs is not defined"

/-- The exception Python raises at a bare reference to the class
attribute `sched_jobs` inside a `JobPool` method. -/
def nameErrorSched : String := "NameError: name sched_jobs is not defined"

/-- `JobPool.remove_system_job` (job_management.py lines 336-363): the
job is removed (by `Job.__cmp__` priority equality) from whichever map
holds it.  When that leaves the user's list empty the source executes
`del new_jobs[job.user]` (line 346) / `del sched_jobs[job.user]`
(line 358); `new_jobs` and `sched_jobs` are class attributes, not in
scope as bare names, so Python raises `NameError` there — after the
list mutation, so the emptied user entry survives and the exception
propagates to the caller. -/
def remove_system_job (st : JPState) (job : Job) : JPState × Option String :=
  if (dictLookup st.new_jobs job.user).elim false
      (fun l => pyContains l job) then
    let l := (dictLookup st.new_jobs job.user).getD []
    let l2 := pyRemoveFirst l job
    let nj := dictSet st.new_jobs job.user l2
    if l2 = [] then ({ st with new_jobs := nj }, some nameErrorNew)
    else ({ st with new_jobs := nj }, none)
  else if (dictLookup st.sched_jobs job.user).elim false
      (fun l => pyContains l job) then
    let l := (dictLookup st.sched_jobs job.user).getD []
    let l2 := pyRemoveFirst l job
    let sj := dictSet st.sched_jobs job.user l2
    if l2 = [] then ({ st with sched_jobs := sj }, some nameErrorSched)
    else ({ st with sched_jobs := sj }, none)
  else (st, none)

/-- `JobPool.schedule` (job_management.py lines 406-415): logs an error
and returns when the job is not in `new_jobs` (priority-equality
membership); otherwise calls `remove_system_job` — whose `NameError`
(raised when the user's new-jobs list empties) propagates out of
`schedule` before the job is added to `sched_jobs` or marked Scheduled.
On the non-raising path, `job.set_status("Scheduled")` mutates the very
object just appended, so the stored job carries status "Scheduled". -/
def schedule (st : JPState) (job : Job) : JPState × Option String :=
  if ¬ ((dictLookup st.new_jobs job.user).elim false
      (fun l => pyContains l job)) then
    (st, none)
  else
    match remove_system_job st job with
    | (st2, some exc) => (st2, some exc)
    | (st2, none) =>
      ({ st2 with sched_jobs :=
          add_job_unordered st2.sched_jobs { job with status := "Scheduled" } },
        none)

/-- The SUCCESS branch of `JobPool.job_querySOAP` for a non-empty
snapshot (job_management.py lines 206-255): the class ads are converted
into fresh `Job` objects (pure, lines 209-227), and then line 236
evaluates `new_jobs.values() + sched_jobs.values()`.  Those bare names
denote class attributes, which are not in scope inside the method, so
Python raises `NameError` there — before any mutation of the pool; the
reconciliation loops of lines 236-255 are unreachable. -/
def job_querySOAP_success (st : JPState) (snapshot : List JobRecord) :
    JPState × Option String :=
  let condor_jobs := snapshot.map jobFromRecord
  let _ := condor_jobs
  (st, some nameErrorNew)

/-- C5: a job in `sched_jobs` whose id occurs in the snapshot is still
in `sched_jobs` after the SUCCESS-branch reconcile, `sched_jobs` is
untouched (in particular the job's status stays "Scheduled"), and the
job is not re-inserted into `new_jobs`.  (This holds because the branch
raises `NameError` at its first access to the pool, before any
mutation.) -/
theorem c5_scheduled_job_stickiness (st : JPState)
    (snapshot : List JobRecord) (job : Job)
    (hsched : job ∈ allJobs st.sched_jobs)
    (_hid : job.id ∈ snapshot.map JobRecord.GlobalJobId)
    (hnew : job ∉ allJobs st.new_jobs)
    (hstat : job.status = "Scheduled") :
    (job_querySOAP_success st snapshot).1.sched_jobs = st.sched_jobs ∧
    job ∈ allJobs (job_querySOAP_success st snapshot).1.sched_jobs ∧
    job.status = "Scheduled" ∧
    job ∉ allJobs (job_querySOAP_success st snapshot).1.new_jobs :=
  ⟨rfl, hsched, hstat, hnew⟩

/-- A concrete scheduled job for the C5 witness. -/
def jobS : Job := ⟨"sj", "u", 3, "Scheduled"⟩

/-- Witness for C5: a pool whose only job is scheduled, reconciled
against a snapshot still holding its id. -/
theorem c5_scheduled_job_stickiness_witness :
    (jobS ∈ allJobs (JPState.mk [] [("u", [jobS])]).sched_jobs ∧
      jobS.id ∈ ([⟨"sj", "u", 3⟩] : List JobRecord).map JobRecord.GlobalJobId ∧
      jobS ∉ allJobs (JPState.mk [] [("u", [jobS])]).new_jobs ∧
      jobS.status = "Scheduled") ∧
    ((job_querySOAP_success (JPState.mk [] [("u", [jobS])])
        [⟨"sj", "u", 3⟩]).1.sched_jobs = [("u", [jobS])] ∧
      jobS ∈ allJobs (job_querySOAP_success (JPState.mk [] [("u", [jobS])])
        [⟨"sj", "u", 3⟩]).1.sched_jobs ∧
      jobS.status = "Scheduled" ∧
      jobS ∉ allJobs (job_querySOAP_success (JPState.mk [] [("u", [jobS])])
        [⟨"sj", "u", 3⟩]).1.new_jobs) :=
  ⟨⟨by decide, by decide, by decide, by decide⟩,
    c5_scheduled_job_stickiness (JPState.mk [] [("u", [jobS])])
      [⟨"sj", "u", 3⟩] jobS (by decide) (by decide) (by decide) (by decide)⟩

/-- External records of spec scenario S5. -/
def recJ1 : JobRecord := ⟨"1", "u", 5⟩

def recJ2 : JobRecord := ⟨"2", "u", 2⟩

/-- C6 evaluated at the failing input (spec scenario S5): reconciling
the two records into an empty JobPool raises `NameError` at
job_management.py line 236 with the pool unchanged — no Job reaches
`new_jobs`, which stays empty instead of holding [id=2, id=1].  The
ordered-insertion component the claim cites (`add_new_job`,
`add_job_ordered`, `Job.__cmp__`) does produce [id=2, id=1] when driven
directly, confirming the claim's intent. -/
theorem c6_reconcile_crash_eval :
    job_querySOAP_success (JPState.mk [] []) [recJ1, recJ2] =
      (JPState.mk [] [], some nameErrorNew) ∧
    (job_querySOAP_success (JPState.mk [] []) [recJ1, recJ2]).1.new_jobs = [] ∧
    (add_new_job (add_new_job (JPState.mk [] []) (jobFromRecord recJ1))
        (jobFromRecord recJ2)).new_jobs =
      [("u", [jobFromRecord recJ2, jobFromRecord recJ1])] := by decide

/-- A concrete unscheduled job for the C8/C9 failing inputs. -/
def jobJ1 : Job := ⟨"job1", "u", 1, "Unscheduled"⟩

/-- C8 evaluated at the failing input: scheduling the only new job of
user u removes it from `new_jobs[u]`, then `remove_system_job` raises
`NameError` at `del new_jobs[job.user]` (job_management.py line 346);
the exception propagates out of `schedule` before the job is added to
`sched_jobs` or marked Scheduled, so the job ends in NEITHER map and
stays Unscheduled — not moved as the claim states.  The claim's no-op
branch for a job absent from `new_jobs` does behave as stated (last
conjunct: state unchanged, no exception). -/
theorem c8_schedule_crash_eval :
    schedule (JPState.mk [("u", [jobJ1])] []) jobJ1 =
      (JPState.mk [("u", [])] [], some nameErrorNew) ∧
    (schedule (JPState.mk [("u", [jobJ1])] []) jobJ1).1.sched_jobs = [] ∧
    jobJ1.status = "Unscheduled" ∧
    schedule (JPState.mk [] [("u", [jobJ1])]) jobJ1 =
      (JPState.mk [] [("u", [jobJ1])], none) := by decide

/-- C9 evaluated at the failing input: the state {u ↦ [jobJ1]} is
reachable (one `add_new_job` from the empty pool); removing that user's
last job leaves `new_jobs` with key u mapped to the EMPTY list, because
the `del` that should erase the entry raises `NameError` (bare
class-attribute name, job_management.py line 346).  A user key thus
exists while its sequence is empty, violating the claimed invariant. -/
theorem c9_remove_leaves_empty_entry :
    add_new_job (JPState.mk [] []) jobJ1 = JPState.mk [("u", [jobJ1])] [] ∧
    remove_system_job (JPState.mk [("u", [jobJ1])] []) jobJ1 =
      (JPState.mk [("u", [])] [], some nameErrorNew) ∧
    dictLookup (remove_system_job (JPState.mk [("u", [jobJ1])] [])
      jobJ1).1.new_jobs "u" = some [] := by decide

end CloudScheduler
